import Mathlib

/-!
Shallow embedding of the tavrikaBot cash-flow report builders
(`src/cashflow.py`) and of the date-argument handling of the report command
(`src/bot.py`), together with theorems settling the frozen claims about them.

Monetary amounts (Python floats) are modelled as integers (the claims
involve only addition, subtraction and summation of amounts); absent
numeric fields are modelled as 0, mirroring the builders' own column-defaulting
(`if col not in df.columns: df[col] = 0`).  A raw report is a list of rows
plus a flag recording whether the `Account.Name` column exists at all,
mirroring the pandas column check in `_normalize_accounts`.
-/

namespace Tavrika

/-- The two canonical cash accounts (`RU_ACCOUNT_MAIN`, `RU_ACCOUNT_TRADES`). -/
inductive Account where
  | main
  | trades
deriving DecidableEq

/-- One raw transaction row as fetched from the back office
(fields used by `cashflow.py`; a `none` category models a NaN
`CashFlowCategory.HierarchyLevel1`, i.e. a balance row). -/
structure RawRow where
  accountName : Option String
  catL1 : Option String
  flowType : String
  sumIncoming : ℤ
  sumOutgoing : ℤ
  startBalance : ℤ
  finalBalance : ℤ
deriving DecidableEq

/-- A raw report: its rows plus whether the `Account.Name` column is present
(`"Account.Name" in df.columns`). -/
structure RawData where
  rows : List RawRow
  hasAccountCol : Bool
deriving DecidableEq

/-- A normalized row: `AccountNorm` is one of the two canonical accounts
(rows that match neither account are dropped by `_normalize_accounts`). -/
structure NRow where
  account : Account
  catL1 : Option String
  flowType : String
  sumIncoming : ℤ
  sumOutgoing : ℤ
  startBalance : ℤ
  finalBalance : ℤ
deriving DecidableEq

/-- Does list `s` start with the list `pat`? -/
def listStarts (pat s : List Char) : Bool :=
  match pat, s with
  | [], _ => true
  | _ :: _, [] => false
  | p :: ps, c :: cs => p == c && listStarts ps cs

/-- Does list `s` contain `pat` as a contiguous run? -/
def listInside (pat s : List Char) : Bool :=
  match s with
  | [] => pat.isEmpty
  | _ :: cs => listStarts pat s || listInside pat cs

/-- Substring test, modelling Python's `pat in s`. -/
def strContains (s pat : String) : Bool :=
  listInside pat.toList s.toList

/-- Python's `str.lower` restricted to the alphabets that occur in the
account labels: ASCII letters and Russian Cyrillic (А-Я and Ё). -/
def pyLower (c : Char) : Char :=
  if 65 ≤ c.toNat ∧ c.toNat ≤ 90 then Char.ofNat (c.toNat + 32)
  else if 0x410 ≤ c.toNat ∧ c.toNat ≤ 0x42F then Char.ofNat (c.toNat + 32)
  else if c.toNat = 0x401 then Char.ofNat 0x451
  else c

/-- Lower-case an entire string (model of `str.lower`). -/
def pyLowerStr (s : String) : String :=
  String.mk (s.toList.map pyLower)

/-- Drop leading whitespace characters from a character list. -/
def dropLeadingWs (cs : List Char) : List Char :=
  match cs with
  | [] => []
  | c :: rest => if c.isWhitespace then dropLeadingWs rest else c :: rest

/-- Python's `str.strip`: remove leading and trailing whitespace. -/
def pyTrim (s : String) : String :=
  String.mk ((dropLeadingWs (dropLeadingWs s.toList).reverse).reverse)

/-- The lowered, stripped account name used for the substring tests
(`str(val or "").strip().lower()`). -/
def lowerName (val : Option String) : String :=
  pyLowerStr (pyTrim (val.getD ""))

/-- Does the lowered name contain a main-cash-register fragment? -/
def mainFragHit (s : String) : Bool :=
  strContains s "главная касс" || strContains s "main cash register"

/-- Does the lowered name contain a trades fragment? -/
def tradesFragHit (s : String) : Bool :=
  strContains s "торгов" || strContains s "trade cash register" || strContains s "trade cash registers"

/-- The exact-key fallback `ACCOUNT_NAME_MAP.get(val)`. -/
def accountNameMap (val : Option String) : Option Account :=
  if val = some "Main cash register" then some Account.main
  else if val = some "Trade cash registers" then some Account.trades
  else if val = some "Главная касса" then some Account.main
  else if val = some "Торговые кассы" then some Account.trades
  else none

/-- Model of `map_name` inside `_normalize_accounts`: case-insensitive substring
matching (main checked first), then the exact-key fallback. -/
def mapName (val : Option String) : Option Account :=
  let s := lowerName val
  if s = "" then none
  else if mainFragHit s then some Account.main
  else if tradesFragHit s then some Account.trades
  else accountNameMap val

/-- Normalize one raw row: keep it iff its account name maps to a canonical
account. -/
def toNRow (r : RawRow) : Option NRow :=
  (mapName r.accountName).map fun a =>
    ⟨a, r.catL1, r.flowType, r.sumIncoming, r.sumOutgoing, r.startBalance, r.finalBalance⟩

/-- Model of `_normalize_accounts`: if the `Account.Name` column is missing every row
is unmatched and filtered out; otherwise rows are kept iff `map_name`
recognizes their account. -/
def normalize_accounts (d : RawData) : List NRow :=
  if d.hasAccountCol then d.rows.filterMap toNRow else []

/-- Model of `CATEGORY_RU_MAP.get(s, s)`: the category synonym table with verbatim
pass-through. -/
def categoryRu (s : String) : String :=
  if s = "Internal transfer" then "Внутреннее перемещение"
  else if s = "Invoices payment" then "Оплата счетов"
  else if s = "Sales" then "Выручка"
  else if s = "Revenue" then "Выручка"
  else if s = "Loan" then "Займ"
  else if s = "Loans" then "Займ"
  else s

/-- The normalized flow rows of a report (category present). -/
def flowsOfD (d : RawData) : List NRow :=
  (normalize_accounts d).filter fun r => r.catL1.isSome

/-- The normalized balance rows of a report (category absent). -/
def balancesOfD (d : RawData) : List NRow :=
  (normalize_accounts d).filter fun r => r.catL1.isNone

/-- Restrict rows to one canonical account. -/
def accFilter (l : List NRow) (a : Account) : List NRow :=
  l.filter fun r => r.account == a

/-- Opening balance per account: sum of `StartBalance.Money` over balance
rows (missing accounts default to 0 through the empty sum). -/
def startBalOf (d : RawData) (a : Account) : ℤ :=
  ((accFilter (balancesOfD d) a).map fun r => r.startBalance).sum

/-- Ending balance per account: sum of `FinalBalance.Money` over balance
rows. -/
def endBalOf (d : RawData) (a : Account) : ℤ :=
  ((accFilter (balancesOfD d) a).map fun r => r.finalBalance).sum

/-- The canonical (Russian) category labels of the flow rows of one activity
type, with duplicates (level-1 values of the aggregation index). -/
def catListFor (flows : List NRow) (t : String) : List String :=
  (flows.filter fun r => r.flowType == t).map fun r => categoryRu (r.catL1.getD "")

/-- Aggregated incoming sum at (type, canonical category, account): the
grouped `Sum.Incoming` totals after mapping categories through
`CATEGORY_RU_MAP` and re-aggregating. -/
def inAgg (flows : List NRow) (t c : String) (a : Account) : ℤ :=
  ((flows.filter fun r =>
      r.flowType == t && categoryRu (r.catL1.getD "") == c && r.account == a).map
    fun r => r.sumIncoming).sum

/-- Aggregated outgoing sum at (type, canonical category, account). -/
def outAgg (flows : List NRow) (t c : String) (a : Account) : ℤ :=
  ((flows.filter fun r =>
      r.flowType == t && categoryRu (r.catL1.getD "") == c && r.account == a).map
    fun r => r.sumOutgoing).sum

/-- A statement row before the total column is appended. -/
structure SRow where
  typeLabel : String
  l1 : String
  l2 : String
  l3 : String
  mainVal : ℤ
  tradesVal : ℤ
deriving DecidableEq

/-- A statement row of the summary tables, with the derived total column. -/
structure SRowT where
  typeLabel : String
  l1 : String
  l2 : String
  l3 : String
  mainVal : ℤ
  tradesVal : ℤ
  total : ℤ
deriving DecidableEq

/-- Model of `result["Итого"] = result[[MAIN, TRADES]].sum(axis=1)` for one row. -/
def addTotal (r : SRow) : SRowT :=
  ⟨r.typeLabel, r.l1, r.l2, r.l3, r.mainVal, r.tradesVal, r.mainVal + r.tradesVal⟩

/-- Build a summary statement row (levels 2 and 3 are always blank). -/
def mkSRow (tlabel l1 : String) (m tr : ℤ) : SRow :=
  ⟨tlabel, l1, "", "", m, tr⟩

/-- The per-type section of the summary statements: a header row with zero
values, then for each category (sorted union of the incoming and outgoing
index categories) an incoming row and a negated outgoing row, each emitted
iff the category occurs in the corresponding frame's index. -/
def mkSection (tlabel : String) (catsIn catsOut : List String)
    (inM inT outM outT : String → ℤ) : List SRow :=
  if (List.insertionSort (fun a b => a ≤ b) ((catsIn ++ catsOut).dedup)).isEmpty then []
  else
    mkSRow tlabel "" 0 0 ::
      ((List.insertionSort (fun a b => a ≤ b) ((catsIn ++ catsOut).dedup)).map fun c =>
        (if catsIn.contains c then [mkSRow tlabel c (inM c) (inT c)] else []) ++
        (if catsOut.contains c then [mkSRow tlabel c (-(outM c)) (-(outT c))] else [])).flatten

/-- The section of `build_cashflow_tables` for one activity type. -/
def secOf (d : RawData) (t tlabel : String) : List SRow :=
  mkSection tlabel (catListFor (flowsOfD d) t) (catListFor (flowsOfD d) t)
    (fun c => inAgg (flowsOfD d) t c Account.main)
    (fun c => inAgg (flowsOfD d) t c Account.trades)
    (fun c => outAgg (flowsOfD d) t c Account.main)
    (fun c => outAgg (flowsOfD d) t c Account.trades)

/-- Model of `build_cashflow_tables`: opening balances, OPERATIONAL then FINANCE
sections, closing balances, with the total column appended. -/
def build_cashflow_tables (d : RawData) : List SRowT :=
  ((mkSRow "Остаток на начало" "" (startBalOf d Account.main) (startBalOf d Account.trades)
      :: (secOf d "OPERATIONAL" "Операционная деятельность" ++
          secOf d "FINANCE" "Финансовая деятельность"))
    ++ [mkSRow "Остаток на конец" "" (endBalOf d Account.main) (endBalOf d Account.trades)]).map
    addTotal

/-- A row of the detailed tables (with the `Приход/Расход` column and the
total computed inside `add_row`). -/
structure DRow where
  typeLabel : String
  l1 : String
  l2 : String
  l3 : String
  inout : String
  mainVal : ℤ
  tradesVal : ℤ
  total : ℤ
deriving DecidableEq

/-- Model of `add_row` of the detailed builders: the total is main + trades. -/
def mkDRow (tlabel l1 io : String) (m tr : ℤ) : DRow :=
  ⟨tlabel, l1, "", "", io, m, tr, m + tr⟩

/-- The per-type section of the detailed statements. -/
def mkDetSection (tlabel : String) (catsIn catsOut : List String)
    (inM inT outM outT : String → ℤ) : List DRow :=
  if (List.insertionSort (fun a b => a ≤ b) ((catsIn ++ catsOut).dedup)).isEmpty then []
  else
    mkDRow tlabel "" "" 0 0 ::
      ((List.insertionSort (fun a b => a ≤ b) ((catsIn ++ catsOut).dedup)).map fun c =>
        (if catsIn.contains c then [mkDRow tlabel c "Приход" (inM c) (inT c)] else []) ++
        (if catsOut.contains c then [mkDRow tlabel c "Расход" (-(outM c)) (-(outT c))] else [])).flatten

/-- The section of `build_cashflow_detailed_table` for one activity type. -/
def detSecOf (d : RawData) (t tlabel : String) : List DRow :=
  mkDetSection tlabel (catListFor (flowsOfD d) t) (catListFor (flowsOfD d) t)
    (fun c => inAgg (flowsOfD d) t c Account.main)
    (fun c => inAgg (flowsOfD d) t c Account.trades)
    (fun c => outAgg (flowsOfD d) t c Account.main)
    (fun c => outAgg (flowsOfD d) t c Account.trades)

/-- Model of `build_cashflow_detailed_table`: the detailed period statement. -/
def build_cashflow_detailed_table (d : RawData) : List DRow :=
  mkDRow "Остаток на начало" "" "" (startBalOf d Account.main) (startBalOf d Account.trades)
    :: (detSecOf d "OPERATIONAL" "Операционная деятельность" ++
        detSecOf d "FINANCE" "Финансовая деятельность")
    ++ [mkDRow "Остаток на конец" "" "" (endBalOf d Account.main) (endBalOf d Account.trades)]

/-- A cell of the aggregated movement frames: one value per account column. -/
structure Cell where
  main : ℤ
  trades : ℤ
deriving DecidableEq

/-- Read one account column of a cell. -/
def cellVal (c : Cell) : Account → ℤ
  | Account.main => c.main
  | Account.trades => c.trades

/-- A grouped sum over flow rows at one (type, raw category) key and
account (`groupby([type, cat, account]).sum()` then `unstack`). -/
def groupSum (flows : List NRow) (f : NRow → ℤ) (k : String × String) (a : Account) : ℤ :=
  ((flows.filter fun r =>
      r.flowType == k.1 && r.catL1.getD "" == k.2 && r.account == a).map f).sum

/-- The distinct (type, raw category) keys of a flow frame's aggregation
index. -/
def rawKeys (flows : List NRow) : List (String × String) :=
  (flows.map fun r => (r.flowType, r.catL1.getD "")).dedup

/-- The outer-join index of two aggregations (`DataFrame.sub` aligns on the
union of the two indexes). -/
def unionKeys (cur prev : List NRow) : List (String × String) :=
  (rawKeys cur ++ rawKeys prev).dedup

/-- Model of `calculate_daily_movement`: per (type, category) key, the current
aggregation minus the previous aggregation, with keys present on only one
side defaulting the other side to 0 (`sub(..., fill_value=0)`). Returns the
daily incoming and daily outgoing frames as association lists. -/
def calculate_daily_movement (current previous : List NRow) :
    List ((String × String) × Cell) × List ((String × String) × Cell) :=
  let keys := unionKeys current previous
  (keys.map fun k =>
      (k, ⟨groupSum current (fun r => r.sumIncoming) k Account.main -
             groupSum previous (fun r => r.sumIncoming) k Account.main,
           groupSum current (fun r => r.sumIncoming) k Account.trades -
             groupSum previous (fun r => r.sumIncoming) k Account.trades⟩),
   keys.map fun k =>
      (k, ⟨groupSum current (fun r => r.sumOutgoing) k Account.main -
             groupSum previous (fun r => r.sumOutgoing) k Account.main,
           groupSum current (fun r => r.sumOutgoing) k Account.trades -
             groupSum previous (fun r => r.sumOutgoing) k Account.trades⟩))

/-- Look a key up in an aggregated frame; a missing key reads as zero. -/
def cellAt (m : List ((String × String) × Cell)) (k : String × String) : Cell :=
  match m.find? (fun p => p.1 == k) with
  | some p => p.2
  | none => ⟨0, 0⟩

/-- The daily incoming frame used by `build_cashflow_tables_for_day`. -/
def dmInOf (dj pj : RawData) : List ((String × String) × Cell) :=
  (calculate_daily_movement (flowsOfD dj) (flowsOfD pj)).1

/-- The daily outgoing frame used by `build_cashflow_tables_for_day`. -/
def dmOutOf (dj pj : RawData) : List ((String × String) × Cell) :=
  (calculate_daily_movement (flowsOfD dj) (flowsOfD pj)).2

/-- Canonical category labels of one activity type in a daily frame's
index (with duplicates before deduplication). -/
def dayCatList (m : List ((String × String) × Cell)) (t : String) : List String :=
  (m.filter fun p => p.1.1 == t).map fun p => categoryRu p.1.2

/-- Value of a daily frame at (type, canonical category, account): the sum
of the cells whose key maps to that canonical label (the
`index.map` + `groupby(level=[0,1]).sum()` collapse). -/
def dayVal (m : List ((String × String) × Cell)) (t c : String) (a : Account) : ℤ :=
  ((m.filter fun p => p.1.1 == t && categoryRu p.1.2 == c).map fun p => cellVal p.2 a).sum

/-- The index of a daily frame after the canonical-label collapse. -/
def ruKeysOf (m : List ((String × String) × Cell)) : List (String × String) :=
  (m.map fun p => (p.1.1, categoryRu p.1.2)).dedup

/-- Column total of a collapsed daily frame (`frame.sum()[acc]`). -/
def dayTotal (m : List ((String × String) × Cell)) (a : Account) : ℤ :=
  ((ruKeysOf m).map fun rk => dayVal m rk.1 rk.2 a).sum

/-- The net daily movement per account of `build_cashflow_tables_for_day`:
zero unless both collapsed frames are non-empty (the
`if not incoming.empty and not outgoing.empty` guard). -/
def dayNet (m1 m2 : List ((String × String) × Cell)) (a : Account) : ℤ :=
  if (ruKeysOf m1).isEmpty || (ruKeysOf m2).isEmpty then 0
  else dayTotal m1 a - dayTotal m2 a

/-- The section of `build_cashflow_tables_for_day` for one activity type. -/
def daySecOf (m1 m2 : List ((String × String) × Cell)) (t tlabel : String) : List SRow :=
  mkSection tlabel (dayCatList m1 t) (dayCatList m2 t)
    (fun c => dayVal m1 t c Account.main)
    (fun c => dayVal m1 t c Account.trades)
    (fun c => dayVal m2 t c Account.main)
    (fun c => dayVal m2 t c Account.trades)

/-- Model of `build_cashflow_tables_for_day`: opening balance from the previous day's
`FinalBalance.Money`, movement sections from the daily deltas, closing
balance computed as opening plus net daily movement. -/
def build_cashflow_tables_for_day (dj pj : RawData) : List SRowT :=
  ((mkSRow "Остаток на начало" "" (endBalOf pj Account.main) (endBalOf pj Account.trades)
      :: (daySecOf (dmInOf dj pj) (dmOutOf dj pj) "OPERATIONAL" "Операционная деятельность" ++
          daySecOf (dmInOf dj pj) (dmOutOf dj pj) "FINANCE" "Финансовая деятельность"))
    ++ [mkSRow "Остаток на конец" ""
          (endBalOf pj Account.main + dayNet (dmInOf dj pj) (dmOutOf dj pj) Account.main)
          (endBalOf pj Account.trades + dayNet (dmInOf dj pj) (dmOutOf dj pj) Account.trades)]).map
    addTotal

/-- The section of `build_cashflow_detailed_table_for_day` for one activity
type: aggregated from the selected day's rows only, with no differencing. -/
def detDaySecOf (dj : RawData) (t tlabel : String) : List DRow :=
  mkDetSection tlabel (catListFor (flowsOfD dj) t) (catListFor (flowsOfD dj) t)
    (fun c => inAgg (flowsOfD dj) t c Account.main)
    (fun c => inAgg (flowsOfD dj) t c Account.trades)
    (fun c => outAgg (flowsOfD dj) t c Account.main)
    (fun c => outAgg (flowsOfD dj) t c Account.trades)

/-- Net movement of the day per account in the detailed day builder:
`(Sum.Incoming - Sum.Outgoing)` summed over the day's flow rows. -/
def dayRowNet (dj : RawData) (a : Account) : ℤ :=
  ((accFilter (flowsOfD dj) a).map fun r => r.sumIncoming - r.sumOutgoing).sum

/-- Model of `build_cashflow_detailed_table_for_day`: opening balance from the
previous day's final balances, sections from the day's own rows, closing
balance computed as opening plus the day's net movement. -/
def build_cashflow_detailed_table_for_day (dj pj : RawData) : List DRow :=
  mkDRow "Остаток на начало" "" "" (endBalOf pj Account.main) (endBalOf pj Account.trades)
    :: (detDaySecOf dj "OPERATIONAL" "Операционная деятельность" ++
        detDaySecOf dj "FINANCE" "Финансовая деятельность")
    ++ [mkDRow "Остаток на конец" ""
          "" (endBalOf pj Account.main + dayRowNet dj Account.main)
          (endBalOf pj Account.trades + dayRowNet dj Account.trades)]

/-- The distinct (type, canonical category) keys of a flow list. -/
def flowRuKeys (flows : List NRow) : List (String × String) :=
  (flows.map fun r => (r.flowType, categoryRu (r.catL1.getD ""))).dedup

/-- Read a summary row's value for one account column. -/
def valA (a : Account) (r : SRowT) : ℤ :=
  match a with
  | Account.main => r.mainVal
  | Account.trades => r.tradesVal

/-- Read a detailed row's value for one account column. -/
def dvalA (a : Account) (r : DRow) : ℤ :=
  match a with
  | Account.main => r.mainVal
  | Account.trades => r.tradesVal

/-- One row of the Excel-ready table of `build_excel_cashflow_table`
(columns A-D then E-R; F and K are kept blank). -/
structure ERow where
  typeLabel : String
  l1 : String
  l2 : String
  l3 : String
  e : ℤ
  f : String
  g : ℤ
  h : ℤ
  i : ℤ
  j : ℤ
  k : String
  l : ℤ
  m : ℤ
  n : ℤ
  o : ℤ
  p : ℤ
  q : ℤ
  r : ℤ
deriving DecidableEq

/-- Model of `add_row` of `build_excel_cashflow_table`: trades values fill J-N, main
values fill E-I, and O-R are the derived trades+main totals. -/
def eAddRow (typeLabel : String) (l1q : Option String)
    (startTrade inTrade outTrade finTrade startMain inMain outMain finMain : ℤ) : ERow :=
  { typeLabel := typeLabel
    l1 := match l1q with
          | some s => categoryRu s
          | none => ""
    l2 := ""
    l3 := ""
    e := startMain, f := "", g := inMain, h := outMain, i := finMain
    j := startTrade, k := "", l := inTrade, m := outTrade, n := finTrade
    o := startTrade + startMain, p := inTrade + inMain
    q := outTrade + outMain, r := finTrade + finMain }

/-- Per-account, per-raw-category sum of one numeric field over the flow
rows (`groupby(["AccountNorm", L1]).sum().to_dict()` with 0 default). -/
def exCatSum (flows : List NRow) (fv : NRow → ℤ) (a : Account) (nm : String) : ℤ :=
  ((flows.filter fun r => r.account == a && r.catL1 == some nm).map fv).sum

/-- The keys of `CATEGORY_RU_MAP`. -/
def ruKeyList : List String :=
  ["Internal transfer", "Invoices payment", "Sales", "Revenue", "Loan", "Loans",
   "Внутреннее перемещение", "Выручка"]

/-- Model of `l1_synonyms`: a Russian label together with every raw key the synonym
table maps onto it (a set, hence deduplicated). -/
def l1Synonyms (ru : String) : List String :=
  (ru :: ruKeyList.filter fun k2 => categoryRu k2 == ru).dedup

/-- Model of `get_val`: total of a per-category dictionary over all synonyms of a
Russian label. -/
def exGetVal (flows : List NRow) (fv : NRow → ℤ) (a : Account) (ru : String) : ℤ :=
  ((l1Synonyms ru).map fun nm => exCatSum flows fv a nm).sum

/-- Start balances for the Excel table: previous day's final balances over
its balance rows. -/
def exStartByAcc (pj : RawData) (a : Account) : ℤ :=
  endBalOf pj a

/-- End balances for the Excel table: the current day's final balances over
its balance rows, falling back to the start balances when the current day
has no balance rows. -/
def exEndByAcc (pj cj : RawData) (a : Account) : ℤ :=
  if (balancesOfD cj).isEmpty then exStartByAcc pj a else endBalOf cj a

/-- Model of `build_excel_cashflow_table`: the fixed ten-row Excel layout — the
account-balances row, six hardcoded operational categories, the operational
total, the `Займ` financing row and the grand total. -/
def build_excel_cashflow_table (pj cj : RawData) : List ERow :=
  let prevF := flowsOfD pj
  let currF := flowsOfD cj
  let pFB := fun (a : Account) (ru : String) => exGetVal prevF (fun r => r.finalBalance) a ru
  let cFB := fun (a : Account) (ru : String) => exGetVal currF (fun r => r.finalBalance) a ru
  let cIn := fun (a : Account) (ru : String) => exGetVal currF (fun r => r.sumIncoming) a ru
  let cOut := fun (a : Account) (ru : String) => exGetVal currF (fun r => r.sumOutgoing) a ru
  let r9 := eAddRow "Общие остатки по кассам" none
      (exStartByAcc pj Account.trades) 0 0 (exEndByAcc pj cj Account.trades)
      (exStartByAcc pj Account.main) 0 0 (exEndByAcc pj cj Account.main)
  let r10 := eAddRow "Операционная деятельность" (some "Внутреннее перемещение")
      (pFB Account.trades "Внутреннее перемещение") 0
      (cOut Account.trades "Внутреннее перемещение") (cFB Account.trades "Внутреннее перемещение")
      (pFB Account.main "Внутреннее перемещение") (cIn Account.main "Внутреннее перемещение")
      0 (cFB Account.main "Внутреннее перемещение")
  let r11 := eAddRow "" (some "Выручка")
      (pFB Account.trades "Выручка") (cIn Account.trades "Выручка") 0 (cFB Account.trades "Выручка")
      0 0 0 0
  let r12 := eAddRow "" (some "Оплата накладных")
      (pFB Account.trades "Оплата накладных") 0 0 (cFB Account.trades "Оплата накладных")
      (pFB Account.main "Оплата накладных") 0 0 (cFB Account.main "Оплата накладных")
  let r13 := eAddRow "" (some "Оплата труда")
      0 0 0 0
      (pFB Account.main "Оплата труда") 0 0 (cFB Account.main "Оплата труда")
  let r14 := eAddRow "" (some "Подотчет")
      (pFB Account.trades "Подотчет") 0 0 (cFB Account.trades "Подотчет")
      (pFB Account.main "Подотчет") 0 (cOut Account.main "Подотчет") (cFB Account.main "Подотчет")
  let r15 := eAddRow "" (some "Предоплата")
      (pFB Account.trades "Предоплата") 0 0 (cFB Account.trades "Предоплата")
      0 0 0 0
  let ops := [r10, r11, r12, r13, r14, r15]
  let s := fun (fv : ERow → ℤ) => (ops.map fv).sum
  let r16 := eAddRow "Операционная деятельность всего" none
      (s (fun x => x.j)) (s (fun x => x.l)) (s (fun x => x.m)) (s (fun x => x.n))
      (s (fun x => x.e)) (s (fun x => x.g)) (s (fun x => x.h)) (s (fun x => x.i))
  let r17 := eAddRow "Финансовая деятельность" (some "Займ")
      0 0 0 0
      (pFB Account.main "Займ") 0 0 (cFB Account.main "Займ")
  let r18 := eAddRow "Итого" none
      (r9.j + r16.j + r17.j) (r9.l + r16.l + r17.l) (r9.m + r16.m + r17.m) (r9.n + r16.n + r17.n)
      (r9.e + r16.e + r17.e) (r9.g + r16.g + r17.g) (r9.h + r16.h + r17.h) (r9.i + r16.i + r17.i)
  [r9, r10, r11, r12, r13, r14, r15, r16, r17, r18]

/-- A calendar date as handled by the bot's `/cashflow` command. -/
structure PDate where
  y : Nat
  m : Nat
  d : Nat
deriving DecidableEq

/-- Gregorian leap year test. -/
def isLeap (y : Nat) : Bool :=
  (y % 4 == 0 && y % 100 != 0) || (y % 400 == 0)

/-- Number of days of a month. -/
def daysInMonth (y mo : Nat) : Nat :=
  if mo == 2 then (if isLeap y then 29 else 28)
  else if mo == 4 || mo == 6 || mo == 9 || mo == 11 then 30
  else 31

/-- The day before a date (`date - timedelta(days=1)`). -/
def prevDay (dt : PDate) : PDate :=
  if dt.d > 1 then ⟨dt.y, dt.m, dt.d - 1⟩
  else if dt.m > 1 then ⟨dt.y, dt.m - 1, daysInMonth dt.y (dt.m - 1)⟩
  else ⟨dt.y - 1, 12, 31⟩

/-- Date comparison (`date.__lt__`). -/
def pdLt (a b : PDate) : Bool :=
  a.y < b.y || (a.y == b.y && (a.m < b.m || (a.m == b.m && a.d < b.d)))

/-- Numeric value of a decimal digit character. -/
def digitNat (c : Char) : Nat :=
  c.toNat - 48

/-- Modelled from the spec and Python's documented `date.fromisoformat`
behaviour for the `YYYY-MM-DD` strings the bot accepts: ten characters,
digits with dashes in positions 5 and 8, and a valid calendar date;
anything else fails (raises `ValueError`, modelled as `none`). -/
def parseIsoDate (s : String) : Option PDate :=
  match s.toList with
  | [y1, y2, y3, y4, c1, m1, m2, c2, d1, d2] =>
    if c1 == '-' && c2 == '-' &&
        [y1, y2, y3, y4, m1, m2, d1, d2].all Char.isDigit then
      let yv := digitNat y1 * 1000 + digitNat y2 * 100 + digitNat y3 * 10 + digitNat y4
      let mo := digitNat m1 * 10 + digitNat m2
      let da := digitNat d1 * 10 + digitNat d2
      if 1 ≤ yv && 1 ≤ mo && mo ≤ 12 && 1 ≤ da && da ≤ daysInMonth yv mo then
        some ⟨yv, mo, da⟩
      else none
    else none
  | _ => none

/-- The date-argument handling of `cashflow_command` (`src/bot.py`): one
argument or two equal arguments select single-day mode over (previous day,
day); two distinct arguments are parsed and swapped if out of order; any
other argument count falls back to the default range (yesterday, today).
A date string that does not parse raises (the `ValueError` of
`date.fromisoformat` propagates out of the handler), modelled as
`Except.error`. -/
def cashflow_parse_args (args : List String) (today : PDate) :
    Except Unit (PDate × PDate × Bool) :=
  match args with
  | [dayStr] =>
    match parseIsoDate dayStr with
    | none => Except.error ()
    | some dd => Except.ok (prevDay dd, dd, true)
  | [a, b] =>
    if a == b then
      match parseIsoDate a with
      | none => Except.error ()
      | some dd => Except.ok (prevDay dd, dd, true)
    else
      match parseIsoDate a, parseIsoDate b with
      | some x, some y => if pdLt y x then Except.ok (y, x, false) else Except.ok (x, y, false)
      | _, _ => Except.error ()
  | _ => Except.ok (prevDay today, today, false)

/-- What a well-formed movement section of `build_cashflow_tables` looks
like for one activity type: there is a category list, sorted and without
duplicates, containing exactly the canonical labels with movement of that
type, and the section is empty when that list is empty, and otherwise is a
zero-valued header row followed, category by category, by the incoming row
and then the negated outgoing row. -/
def sectionOkT (d : RawData) (t tlabel : String) (rows : List SRowT) : Prop :=
  ∃ cats : List String,
    cats.Sorted (· ≤ ·) ∧ cats.Nodup ∧
    (∀ c, c ∈ cats ↔ ∃ r ∈ flowsOfD d, r.flowType = t ∧ categoryRu (r.catL1.getD "") = c) ∧
    (cats = [] → rows = []) ∧
    (cats ≠ [] →
      rows = addTotal (mkSRow tlabel "" 0 0) ::
        (cats.map fun c =>
          [addTotal (mkSRow tlabel c (inAgg (flowsOfD d) t c Account.main)
              (inAgg (flowsOfD d) t c Account.trades)),
           addTotal (mkSRow tlabel c (-(outAgg (flowsOfD d) t c Account.main))
              (-(outAgg (flowsOfD d) t c Account.trades)))]).flatten)

/-- Summing a pointwise difference splits into a difference of sums. -/
theorem sum_map_sub {α : Type} (l : List α) (f g : α → ℤ) :
    (l.map fun x => f x - g x).sum = (l.map f).sum - (l.map g).sum := by
  induction l with
  | nil => simp
  | cons x xs ih =>
    simp only [List.map_cons, List.sum_cons, ih]
    ring

/-- The last element of a statement-shaped list. -/
theorem getLast?_shape {α : Type} (a b : α) (mid : List α) :
    (a :: (mid ++ [b])).getLast? = some b := by
  rw [← List.cons_append]
  exact List.getLast?_concat _

/-- Looking up a key in an association list built over a key list. -/
theorem cellAt_map_keys (keys : List (String × String)) (f : String × String → Cell)
    (k : String × String) :
    cellAt (keys.map fun x => (x, f x)) k = if k ∈ keys then f k else ⟨0, 0⟩ := by
  induction keys with
  | nil => simp [cellAt]
  | cons x xs ih =>
    by_cases hx : x = k
    · subst hx
      simp [cellAt, List.find?]
    · have hk : ¬k = x := fun h => hx h.symm
      have h1 : ((x, f x).1 == k) = false := by simpa using hx
      have h2 : cellAt ((x, f x) :: xs.map fun y => (y, f y)) k
          = cellAt (xs.map fun y => (y, f y)) k := by
        simp [cellAt, List.find?, h1]
      rw [List.map_cons, h2, ih]
      simp [List.mem_cons, hk]

/-- A key outside the aggregation index has a zero grouped sum. -/
theorem groupSum_eq_zero_of_notmem (flows : List NRow) (f : NRow → ℤ) (k : String × String)
    (a : Account) (h : k ∉ rawKeys flows) : groupSum flows f k a = 0 := by
  unfold groupSum
  have hfil : flows.filter
      (fun r => r.flowType == k.1 && r.catL1.getD "" == k.2 && r.account == a) = [] := by
    rw [List.filter_eq_nil_iff]
    intro r hr hp
    simp only [Bool.and_eq_true, beq_iff_eq] at hp
    apply h
    unfold rawKeys
    rw [List.mem_dedup]
    exact List.mem_map.mpr ⟨r, hr, by rw [hp.1.1, hp.1.2]⟩
  rw [hfil]
  rfl

/-- C3: `calculate_daily_movement` returns, at every (activity type,
category) key and account, the current day's aggregated sum minus the
previous day's aggregated sum, with outer-join semantics: a key missing on
either side contributes 0 there (and a key present in neither reads as
0 − 0 = 0). -/
theorem c3_daily_movement_outer_join :
    ∀ (cur prev : List NRow) (k : String × String) (a : Account),
      cellVal (cellAt (calculate_daily_movement cur prev).1 k) a
        = groupSum cur (fun r => r.sumIncoming) k a
            - groupSum prev (fun r => r.sumIncoming) k a
      ∧ cellVal (cellAt (calculate_daily_movement cur prev).2 k) a
        = groupSum cur (fun r => r.sumOutgoing) k a
            - groupSum prev (fun r => r.sumOutgoing) k a := by
  intro cur prev k a
  have hcur : k ∉ unionKeys cur prev → k ∉ rawKeys cur := by
    intro hk hh
    exact hk (List.mem_dedup.mpr (List.mem_append.mpr (Or.inl hh)))
  have hprev : k ∉ unionKeys cur prev → k ∉ rawKeys prev := by
    intro hk hh
    exact hk (List.mem_dedup.mpr (List.mem_append.mpr (Or.inr hh)))
  unfold calculate_daily_movement
  constructor
  · rw [cellAt_map_keys]
    by_cases hk : k ∈ unionKeys cur prev
    · rw [if_pos hk]
      cases a <;> rfl
    · rw [if_neg hk,
        groupSum_eq_zero_of_notmem cur _ k a (hcur hk),
        groupSum_eq_zero_of_notmem prev _ k a (hprev hk)]
      cases a <;> simp [cellVal]
  · rw [cellAt_map_keys]
    by_cases hk : k ∈ unionKeys cur prev
    · rw [if_pos hk]
      cases a <;> rfl
    · rw [if_neg hk,
        groupSum_eq_zero_of_notmem cur _ k a (hcur hk),
        groupSum_eq_zero_of_notmem prev _ k a (hprev hk)]
      cases a <;> simp [cellVal]

/-- C9: the spreadsheet table of `build_excel_cashflow_table` always has
exactly ten rows with a fixed set of labels — the account-balances row, the
six hardcoded operational level-1 categories, the operational total, the
`Займ` financing row and the grand total — so a category present in the
input but outside this fixed set never produces a row of its own. -/
theorem c9_excel_fixed_rows :
    ∀ pj cj : RawData,
      (build_excel_cashflow_table pj cj).length = 10 ∧
      (build_excel_cashflow_table pj cj).map (fun r => r.typeLabel) =
        ["Общие остатки по кассам", "Операционная деятельность", "", "", "", "", "",
         "Операционная деятельность всего", "Финансовая деятельность", "Итого"] ∧
      (build_excel_cashflow_table pj cj).map (fun r => r.l1) =
        ["", "Внутреннее перемещение", "Выручка", "Оплата накладных", "Оплата труда",
         "Подотчет", "Предоплата", "", "Займ", ""] := by
  intro pj cj
  exact ⟨rfl, rfl, rfl⟩

/-- C10: the movement rows (everything strictly between the opening and
closing rows) of `build_cashflow_detailed_table_for_day` are computed from
the selected day's input only: any two previous-day inputs give statements
of the same length whose middles coincide; the previous-day input can only
influence the opening and closing balance rows. -/
theorem c10_detailed_day_prev_independence :
    ∀ dj p1 p2 : RawData,
      (build_cashflow_detailed_table_for_day dj p1).length
        = (build_cashflow_detailed_table_for_day dj p2).length ∧
      List.drop 1 (build_cashflow_detailed_table_for_day dj p1).dropLast
        = List.drop 1 (build_cashflow_detailed_table_for_day dj p2).dropLast := by
  intro dj p1 p2
  unfold build_cashflow_detailed_table_for_day
  constructor
  · simp
  · rw [← List.cons_append, ← List.cons_append, List.dropLast_concat, List.dropLast_concat]
    rfl

/-- C7: when the raw data has no account-name column every row is
unmatched, the account filter removes all rows, and `build_cashflow_tables`
still returns a statement consisting of exactly an opening-balance row and
a closing-balance row, both zero in both account columns, with no movement
sections. -/
theorem c7_no_account_column (d : RawData) (h : d.hasAccountCol = false) :
    build_cashflow_tables d =
      [addTotal (mkSRow "Остаток на начало" "" 0 0),
       addTotal (mkSRow "Остаток на конец" "" 0 0)] := by
  have hnorm : normalize_accounts d = [] := by simp [normalize_accounts, h]
  have hflows : flowsOfD d = [] := by simp [flowsOfD, hnorm]
  have hbal : balancesOfD d = [] := by simp [balancesOfD, hnorm]
  have hstart : ∀ a, startBalOf d a = 0 := by
    intro a
    simp [startBalOf, hbal, accFilter]
  have hend : ∀ a, endBalOf d a = 0 := by
    intro a
    simp [endBalOf, hbal, accFilter]
  have hsec : ∀ t tl, secOf d t tl = [] := by
    intro t tl
    simp [secOf, mkSection, catListFor, hflows]
  unfold build_cashflow_tables
  rw [hstart, hstart, hend, hend, hsec, hsec]
  rfl

/-- Witness for C7 at a concrete input with rows but no account column. -/
theorem c7_no_account_column_witness :
    build_cashflow_tables
        ⟨[⟨some "Главная касса", some "Выручка", "OPERATIONAL", 100, 50, 0, 0⟩], false⟩ =
      [addTotal (mkSRow "Остаток на начало" "" 0 0),
       addTotal (mkSRow "Остаток на конец" "" 0 0)] :=
  c7_no_account_column _ rfl

/-- A label is in the category list of a type iff some flow row of that
type carries it (after synonym collapse). -/
theorem mem_catListFor (d : RawData) (t c : String) :
    c ∈ catListFor (flowsOfD d) t ↔
      ∃ r ∈ flowsOfD d, r.flowType = t ∧ categoryRu (r.catL1.getD "") = c := by
  unfold catListFor
  constructor
  · intro hc
    obtain ⟨r, hr, hcr⟩ := List.mem_map.mp hc
    obtain ⟨hrf, hft⟩ := List.mem_filter.mp hr
    exact ⟨r, hrf, by simpa using hft, hcr⟩
  · rintro ⟨r, hr, ht, hcr⟩
    exact List.mem_map.mpr ⟨r, List.mem_filter.mpr ⟨hr, by simpa using ht⟩, hcr⟩

/-- When the incoming and outgoing frames share their index (as they do in
all builders), every category of the sorted union emits exactly an
incoming row followed by an outgoing row. -/
theorem mkSection_pairs (tlabel : String) (x : List String)
    (inM inT outM outT : String → ℤ) :
    mkSection tlabel x x inM inT outM outT =
      if (List.insertionSort (fun a b => a ≤ b) ((x ++ x).dedup)).isEmpty then []
      else
        mkSRow tlabel "" 0 0 ::
          ((List.insertionSort (fun a b => a ≤ b) ((x ++ x).dedup)).map fun c =>
            [mkSRow tlabel c (inM c) (inT c),
             mkSRow tlabel c (-(outM c)) (-(outT c))]).flatten := by
  unfold mkSection
  by_cases h : (List.insertionSort (fun a b => a ≤ b) ((x ++ x).dedup)).isEmpty
  · rw [if_pos h, if_pos h]
  · rw [if_neg h, if_neg h]
    congr 2
    apply List.map_congr_left
    intro c hc
    have hx : c ∈ x := by
      have h1 : c ∈ (x ++ x).dedup := (List.mem_insertionSort _).mp hc
      rcases List.mem_append.mp (List.mem_dedup.mp h1) with h2 | h2 <;> exact h2
    rw [if_pos (List.elem_eq_true_of_mem hx), if_pos (List.elem_eq_true_of_mem hx)]
    rfl

/-- The per-type section of `build_cashflow_tables` (after the total column
is appended) is a well-formed section in the sense of `sectionOkT`. -/
theorem sectionOkT_secOf (d : RawData) (t tlabel : String) :
    sectionOkT d t tlabel ((secOf d t tlabel).map addTotal) := by
  refine ⟨List.insertionSort (fun a b => a ≤ b)
      ((catListFor (flowsOfD d) t ++ catListFor (flowsOfD d) t).dedup),
      List.sorted_insertionSort _ _,
      (List.perm_insertionSort _ _).nodup_iff.mpr (List.nodup_dedup _), ?_, ?_, ?_⟩
  · intro c
    rw [List.mem_insertionSort, List.mem_dedup, List.mem_append, or_self]
    exact mem_catListFor d t c
  · intro hnil
    unfold secOf
    rw [mkSection_pairs, if_pos (by rw [hnil]; rfl)]
    rfl
  · intro hne
    unfold secOf
    rw [mkSection_pairs, if_neg (by simpa [List.isEmpty_iff] using hne)]
    rw [List.map_cons, List.map_flatten, List.map_map]
    rfl

/-- Any member of a (totalled) section is a member of the full summary
statement. -/
theorem mem_build_of_mem_sec (d : RawData) (x : SRowT)
    (hx : x ∈ (secOf d "OPERATIONAL" "Операционная деятельность").map addTotal ∨
          x ∈ (secOf d "FINANCE" "Финансовая деятельность").map addTotal) :
    x ∈ build_cashflow_tables d := by
  unfold build_cashflow_tables
  rw [List.map_append, List.map_cons, List.cons_append, List.map_append]
  apply List.mem_cons_of_mem
  apply List.mem_append_left
  rcases hx with hx | hx
  · exact List.mem_append_left _ hx
  · exact List.mem_append_right _ hx

/-- For a category with movement, the section contains its incoming row and
its negated outgoing row. -/
theorem mem_secOf_rows (d : RawData) (t tlabel c : String)
    (hc : ∃ r ∈ flowsOfD d, r.flowType = t ∧ categoryRu (r.catL1.getD "") = c) :
    addTotal (mkSRow tlabel c (inAgg (flowsOfD d) t c Account.main)
        (inAgg (flowsOfD d) t c Account.trades)) ∈ (secOf d t tlabel).map addTotal ∧
    addTotal (mkSRow tlabel c (-(outAgg (flowsOfD d) t c Account.main))
        (-(outAgg (flowsOfD d) t c Account.trades))) ∈ (secOf d t tlabel).map addTotal := by
  obtain ⟨cats, _, _, hmem, _, hcons⟩ := sectionOkT_secOf d t tlabel
  have hcc : c ∈ cats := (hmem c).mpr hc
  have hne : cats ≠ [] := by
    intro he
    rw [he] at hcc
    exact absurd hcc (List.not_mem_nil c)
  rw [hcons hne]
  constructor
  · apply List.mem_cons_of_mem
    exact List.mem_flatten.mpr ⟨_, List.mem_map.mpr ⟨c, hcc, rfl⟩, by simp⟩
  · apply List.mem_cons_of_mem
    exact List.mem_flatten.mpr ⟨_, List.mem_map.mpr ⟨c, hcc, rfl⟩, by simp⟩

/-- C2: the summary statement of `build_cashflow_tables` always consists of
the opening-balance row first, then (for each activity type with movement,
OPERATIONAL before FINANCE) one zero-valued section-header row followed
contiguously by the type's category rows sorted lexicographically by
canonical label with the incoming row before the outgoing row, and the
closing-balance row last. -/
theorem c2_statement_structure (d : RawData) :
    ∃ opRows finRows : List SRowT,
      build_cashflow_tables d =
        addTotal (mkSRow "Остаток на начало" ""
            (startBalOf d Account.main) (startBalOf d Account.trades))
          :: (opRows ++ finRows)
          ++ [addTotal (mkSRow "Остаток на конец" ""
              (endBalOf d Account.main) (endBalOf d Account.trades))]
        ∧ sectionOkT d "OPERATIONAL" "Операционная деятельность" opRows
        ∧ sectionOkT d "FINANCE" "Финансовая деятельность" finRows := by
  refine ⟨(secOf d "OPERATIONAL" "Операционная деятельность").map addTotal,
      (secOf d "FINANCE" "Финансовая деятельность").map addTotal, ?_,
      sectionOkT_secOf d "OPERATIONAL" _, sectionOkT_secOf d "FINANCE" _⟩
  unfold build_cashflow_tables
  rw [List.map_append, List.map_cons, List.cons_append, List.map_append]
  rfl

/-- C4: for every (activity type, category, account) with movement, the
summary statement contains the category's incoming row carrying the
aggregated incoming sums unchanged and its outgoing row carrying the
negated aggregated outgoing sums; the first and last rows carry the
unnegated opening and closing balance sums. -/
theorem c4_signed_amounts (d : RawData) (t tlabel c : String)
    (ht : (t, tlabel) ∈ [("OPERATIONAL", "Операционная деятельность"),
                         ("FINANCE", "Финансовая деятельность")])
    (hc : ∃ r ∈ flowsOfD d, r.flowType = t ∧ categoryRu (r.catL1.getD "") = c) :
    addTotal (mkSRow tlabel c (inAgg (flowsOfD d) t c Account.main)
        (inAgg (flowsOfD d) t c Account.trades)) ∈ build_cashflow_tables d ∧
    addTotal (mkSRow tlabel c (-(outAgg (flowsOfD d) t c Account.main))
        (-(outAgg (flowsOfD d) t c Account.trades))) ∈ build_cashflow_tables d ∧
    (build_cashflow_tables d).head? = some (addTotal (mkSRow "Остаток на начало" ""
        (startBalOf d Account.main) (startBalOf d Account.trades))) ∧
    (build_cashflow_tables d).getLast? = some (addTotal (mkSRow "Остаток на конец" ""
        (endBalOf d Account.main) (endBalOf d Account.trades))) := by
  have hhead : (build_cashflow_tables d).head? = some (addTotal (mkSRow "Остаток на начало" ""
      (startBalOf d Account.main) (startBalOf d Account.trades))) := by
    unfold build_cashflow_tables
    rw [List.map_append, List.map_cons, List.cons_append]
    rfl
  have hlast : (build_cashflow_tables d).getLast? = some (addTotal (mkSRow "Остаток на конец" ""
      (endBalOf d Account.main) (endBalOf d Account.trades))) := by
    unfold build_cashflow_tables
    rw [List.map_append, List.map_cons, List.cons_append]
    exact getLast?_shape _ _ _
  simp only [List.mem_cons, List.not_mem_nil, or_false, Prod.mk.injEq] at ht
  rcases ht with ⟨rfl, rfl⟩ | ⟨rfl, rfl⟩
  · obtain ⟨h1, h2⟩ := mem_secOf_rows d "OPERATIONAL" "Операционная деятельность" c hc
    exact ⟨mem_build_of_mem_sec d _ (Or.inl h1), mem_build_of_mem_sec d _ (Or.inl h2),
      hhead, hlast⟩
  · obtain ⟨h1, h2⟩ := mem_secOf_rows d "FINANCE" "Финансовая деятельность" c hc
    exact ⟨mem_build_of_mem_sec d _ (Or.inr h1), mem_build_of_mem_sec d _ (Or.inr h2),
      hhead, hlast⟩

/-- A sum over a list splits along a Boolean filter. -/
theorem sum_filter_split {α : Type} (l : List α) (p : α → Bool) (f : α → ℤ) :
    ((l.filter p).map f).sum + ((l.filter fun x => !(p x)).map f).sum = (l.map f).sum := by
  induction l with
  | nil => simp
  | cons x xs ih =>
    by_cases hp : p x = true
    · simp [List.filter_cons, hp]
      linarith [ih]
    · have hp2 : p x = false := by
        cases h : p x
        · rfl
        · exact absurd h hp
      simp [List.filter_cons, hp2]
      linarith [ih]

/-- Summing fiber-wise over a duplicate-free key list covering a list's keys
recovers the total sum. -/
theorem sum_fiberwise {α K : Type} [BEq K] [LawfulBEq K] (keys : List K) :
    ∀ (l : List α) (key : α → K) (f : α → ℤ), keys.Nodup →
      (∀ x ∈ l, key x ∈ keys) →
      (keys.map fun k => ((l.filter fun x => key x == k).map f).sum).sum = (l.map f).sum := by
  induction keys with
  | nil =>
    intro l key f _ hcov
    have hl : l = [] := by
      cases l with
      | nil => rfl
      | cons x xs => exact absurd (hcov x (List.mem_cons_self x xs)) (List.not_mem_nil _)
    subst hl
    rfl
  | cons k ks ih =>
    intro l key f hnd hcov
    obtain ⟨hk, hnd2⟩ := List.nodup_cons.mp hnd
    rw [List.map_cons, List.sum_cons]
    have hfib : ∀ k2 ∈ ks,
        ((l.filter fun x => !(key x == k)).filter fun x => key x == k2)
          = l.filter fun x => key x == k2 := by
      intro k2 hk2
      rw [List.filter_filter]
      apply List.filter_congr
      intro x _
      by_cases hx : key x = k2
      · have hne : ¬k2 = k := fun he => hk (he ▸ hk2)
        have hxk : ¬key x = k := by
          rw [hx]
          exact hne
        simp [hx, hxk, hne]
      · simp [hx]
    have hcov2 : ∀ x ∈ (l.filter fun x => !(key x == k)), key x ∈ ks := by
      intro x hx
      obtain ⟨hxl, hxp⟩ := List.mem_filter.mp hx
      have : ¬key x = k := by
        intro he
        rw [he] at hxp
        simp at hxp
      rcases List.mem_cons.mp (hcov x hxl) with h | h
      · exact absurd h this
      · exact h
    have hih := ih (l.filter fun x => !(key x == k)) key f hnd2 hcov2
    have hmapeq : (ks.map fun k2 =>
        (((l.filter fun x => !(key x == k)).filter fun x => key x == k2).map f).sum)
        = ks.map fun k2 => ((l.filter fun x => key x == k2).map f).sum := by
      apply List.map_congr_left
      intro k2 hk2
      rw [hfib k2 hk2]
    rw [hmapeq] at hih
    rw [hih, sum_filter_split]

/-- A collapsed daily frame has an empty index exactly when the frame
itself is empty. -/
theorem ruKeysOf_isEmpty_iff (m : List ((String × String) × Cell)) :
    (ruKeysOf m).isEmpty = true ↔ m = [] := by
  rw [List.isEmpty_iff]
  unfold ruKeysOf
  constructor
  · intro h
    exact List.map_eq_nil_iff.mp ((List.dedup_eq_nil _).mp h)
  · intro h
    subst h
    rfl

/-- The `empty`-guard in `build_cashflow_tables_for_day` never changes the
net movement: the daily incoming and outgoing frames share one index, so
either both are empty (making both totals zero) or neither is. -/
theorem dayNet_eq (dj pj : RawData) (a : Account) :
    dayNet (dmInOf dj pj) (dmOutOf dj pj) a
      = dayTotal (dmInOf dj pj) a - dayTotal (dmOutOf dj pj) a := by
  unfold dayNet
  by_cases h : ((ruKeysOf (dmInOf dj pj)).isEmpty || (ruKeysOf (dmOutOf dj pj)).isEmpty) = true
  · rw [if_pos h]
    have hkeys : unionKeys (flowsOfD dj) (flowsOfD pj) = [] := by
      rcases Bool.or_eq_true_iff.mp h with h1 | h1
      · have : dmInOf dj pj = [] := (ruKeysOf_isEmpty_iff _).mp h1
        exact List.map_eq_nil_iff.mp this
      · have : dmOutOf dj pj = [] := (ruKeysOf_isEmpty_iff _).mp h1
        exact List.map_eq_nil_iff.mp this
    have hin : dmInOf dj pj = [] := by
      unfold dmInOf calculate_daily_movement
      rw [hkeys]
      rfl
    have hout : dmOutOf dj pj = [] := by
      unfold dmOutOf calculate_daily_movement
      rw [hkeys]
      rfl
    rw [hin, hout]
    norm_num [dayTotal, ruKeysOf]
  · rw [if_neg h]

/-- Fiber-wise reading of the total incoming of one account over a day's
flow rows: summing the per-category aggregated sums over the distinct
(type, canonical category) keys equals summing the rows directly. -/
theorem inAgg_fiber (flows : List NRow) (a : Account) :
    ((flowRuKeys flows).map fun k => inAgg flows k.1 k.2 a).sum
      = ((accFilter flows a).map fun r => r.sumIncoming).sum := by
  have hnd : (flowRuKeys flows).Nodup := List.nodup_dedup _
  have hcov : ∀ r ∈ accFilter flows a,
      (r.flowType, categoryRu (r.catL1.getD "")) ∈ flowRuKeys flows := by
    intro r hr
    unfold flowRuKeys
    rw [List.mem_dedup]
    exact List.mem_map.mpr ⟨r, (List.mem_filter.mp hr).1, rfl⟩
  have h := sum_fiberwise (flowRuKeys flows) (accFilter flows a)
      (fun r => (r.flowType, categoryRu (r.catL1.getD ""))) (fun r => r.sumIncoming) hnd hcov
  rw [← h]
  apply congrArg
  apply List.map_congr_left
  intro k _
  unfold inAgg accFilter
  rw [List.filter_filter]
  apply congrArg
  apply congrArg
  apply List.filter_congr
  intro r _
  obtain ⟨k1, k2⟩ := k
  have hprod : ∀ x y u v : String, ((x, y) == (u, v)) = (x == u && y == v) :=
    fun _ _ _ _ => rfl
  rw [hprod, Bool.and_assoc]

/-- Fiber-wise reading of the total outgoing of one account over a day's
flow rows. -/
theorem outAgg_fiber (flows : List NRow) (a : Account) :
    ((flowRuKeys flows).map fun k => outAgg flows k.1 k.2 a).sum
      = ((accFilter flows a).map fun r => r.sumOutgoing).sum := by
  have hnd : (flowRuKeys flows).Nodup := List.nodup_dedup _
  have hcov : ∀ r ∈ accFilter flows a,
      (r.flowType, categoryRu (r.catL1.getD "")) ∈ flowRuKeys flows := by
    intro r hr
    unfold flowRuKeys
    rw [List.mem_dedup]
    exact List.mem_map.mpr ⟨r, (List.mem_filter.mp hr).1, rfl⟩
  have h := sum_fiberwise (flowRuKeys flows) (accFilter flows a)
      (fun r => (r.flowType, categoryRu (r.catL1.getD ""))) (fun r => r.sumOutgoing) hnd hcov
  rw [← h]
  apply congrArg
  apply List.map_congr_left
  intro k _
  unfold outAgg accFilter
  rw [List.filter_filter]
  apply congrArg
  apply congrArg
  apply List.filter_congr
  intro r _
  obtain ⟨k1, k2⟩ := k
  have hprod : ∀ x y u v : String, ((x, y) == (u, v)) = (x == u && y == v) :=
    fun _ _ _ _ => rfl
  rw [hprod, Bool.and_assoc]

/-- C1: in both day builders the closing-balance row of each account equals
the opening-balance row plus the sum of incoming amounts minus the sum of
outgoing amounts across all categories of that day — the closing balance is
computed from the movements, never read from a cumulative balance field. -/
theorem c1_day_closing_balance_law :
    (∀ (dj pj : RawData) (a : Account),
      ∃ hd lst : SRowT,
        (build_cashflow_tables_for_day dj pj).head? = some hd ∧
        (build_cashflow_tables_for_day dj pj).getLast? = some lst ∧
        valA a lst = valA a hd + dayTotal (dmInOf dj pj) a - dayTotal (dmOutOf dj pj) a) ∧
    (∀ (dj pj : RawData) (a : Account),
      ∃ hd lst : DRow,
        (build_cashflow_detailed_table_for_day dj pj).head? = some hd ∧
        (build_cashflow_detailed_table_for_day dj pj).getLast? = some lst ∧
        dvalA a lst = dvalA a hd
          + ((flowRuKeys (flowsOfD dj)).map fun k => inAgg (flowsOfD dj) k.1 k.2 a).sum
          - ((flowRuKeys (flowsOfD dj)).map fun k => outAgg (flowsOfD dj) k.1 k.2 a).sum) := by
  constructor
  · intro dj pj a
    refine ⟨addTotal (mkSRow "Остаток на начало" ""
        (endBalOf pj Account.main) (endBalOf pj Account.trades)),
      addTotal (mkSRow "Остаток на конец" ""
        (endBalOf pj Account.main + dayNet (dmInOf dj pj) (dmOutOf dj pj) Account.main)
        (endBalOf pj Account.trades + dayNet (dmInOf dj pj) (dmOutOf dj pj) Account.trades)),
      ?_, ?_, ?_⟩
    · unfold build_cashflow_tables_for_day
      rw [List.map_append, List.map_cons, List.cons_append]
      rfl
    · unfold build_cashflow_tables_for_day
      rw [List.map_append, List.map_cons, List.cons_append]
      exact getLast?_shape _ _ _
    · cases a <;> simp [valA, addTotal, mkSRow, dayNet_eq dj pj] <;> ring
  · intro dj pj a
    refine ⟨mkDRow "Остаток на начало" "" "" (endBalOf pj Account.main) (endBalOf pj Account.trades),
      mkDRow "Остаток на конец" "" ""
        (endBalOf pj Account.main + dayRowNet dj Account.main)
        (endBalOf pj Account.trades + dayRowNet dj Account.trades),
      ?_, ?_, ?_⟩
    · unfold build_cashflow_detailed_table_for_day
      rfl
    · unfold build_cashflow_detailed_table_for_day
      exact getLast?_shape _ _ _
    · have hnet : ∀ b : Account, dayRowNet dj b
          = ((flowRuKeys (flowsOfD dj)).map fun k => inAgg (flowsOfD dj) k.1 k.2 b).sum
            - ((flowRuKeys (flowsOfD dj)).map fun k => outAgg (flowsOfD dj) k.1 k.2 b).sum := by
        intro b
        unfold dayRowNet
        rw [sum_map_sub, inAgg_fiber, outAgg_fiber]
      cases a <;> simp [dvalA, mkDRow, hnet] <;> ring

/-- Witness for C4 at Example 2 of the spec: two movements for `Займ`
(FINANCE, main account, incoming 500 and outgoing 200) produce an incoming
row +500 and an outgoing row −200. -/
theorem c4_signed_amounts_witness :
    addTotal (mkSRow "Финансовая деятельность" "Займ" 500 0) ∈
      build_cashflow_tables
        ⟨[⟨some "Главная касса", some "Займ", "FINANCE", 500, 200, 0, 0⟩], true⟩ ∧
    addTotal (mkSRow "Финансовая деятельность" "Займ" (-200) 0) ∈
      build_cashflow_tables
        ⟨[⟨some "Главная касса", some "Займ", "FINANCE", 500, 200, 0, 0⟩], true⟩ := by
  have h := c4_signed_amounts
      ⟨[⟨some "Главная касса", some "Займ", "FINANCE", 500, 200, 0, 0⟩], true⟩
      "FINANCE" "Финансовая деятельность" "Займ" (by decide) (by decide)
  have e1 : inAgg (flowsOfD ⟨[⟨some "Главная касса", some "Займ", "FINANCE", 500, 200, 0, 0⟩],
      true⟩) "FINANCE" "Займ" Account.main = 500 := by decide
  have e2 : inAgg (flowsOfD ⟨[⟨some "Главная касса", some "Займ", "FINANCE", 500, 200, 0, 0⟩],
      true⟩) "FINANCE" "Займ" Account.trades = 0 := by decide
  have e3 : outAgg (flowsOfD ⟨[⟨some "Главная касса", some "Займ", "FINANCE", 500, 200, 0, 0⟩],
      true⟩) "FINANCE" "Займ" Account.main = 200 := by decide
  have e4 : outAgg (flowsOfD ⟨[⟨some "Главная касса", some "Займ", "FINANCE", 500, 200, 0, 0⟩],
      true⟩) "FINANCE" "Займ" Account.trades = 0 := by decide
  constructor
  · have h1 := h.1
    rw [e1, e2] at h1
    exact h1
  · have h2 := h.2.1
    rw [e3, e4] at h2
    simpa using h2

/-- Every row of a detailed section satisfies the total-column law. -/
theorem mkDetSection_total (tlabel : String) (catsIn catsOut : List String)
    (inM inT outM outT : String → ℤ) (r : DRow)
    (hr : r ∈ mkDetSection tlabel catsIn catsOut inM inT outM outT) :
    r.total = r.mainVal + r.tradesVal := by
  unfold mkDetSection at hr
  split at hr
  · exact absurd hr (List.not_mem_nil r)
  · rcases List.mem_cons.mp hr with rfl | hr2
    · rfl
    · obtain ⟨l, hl, hrl⟩ := List.mem_flatten.mp hr2
      obtain ⟨c, _, rfl⟩ := List.mem_map.mp hl
      rcases List.mem_append.mp hrl with h | h
      · split at h
        · rcases List.mem_singleton.mp h with rfl
          rfl
        · exact absurd h (List.not_mem_nil r)
      · split at h
        · rcases List.mem_singleton.mp h with rfl
          rfl
        · exact absurd h (List.not_mem_nil r)

/-- C5: in every statement any of the four builders produces (summary and
detailed, period and day variants), each row's total column equals the sum
of its two per-account columns. -/
theorem c5_total_column :
    (∀ d : RawData, ∀ r ∈ build_cashflow_tables d,
        r.total = r.mainVal + r.tradesVal) ∧
    (∀ d : RawData, ∀ r ∈ build_cashflow_detailed_table d,
        r.total = r.mainVal + r.tradesVal) ∧
    (∀ dj pj : RawData, ∀ r ∈ build_cashflow_tables_for_day dj pj,
        r.total = r.mainVal + r.tradesVal) ∧
    (∀ dj pj : RawData, ∀ r ∈ build_cashflow_detailed_table_for_day dj pj,
        r.total = r.mainVal + r.tradesVal) := by
  refine ⟨?_, ?_, ?_, ?_⟩
  · intro d r hr
    obtain ⟨s, _, rfl⟩ := List.mem_map.mp hr
    rfl
  · intro d r hr
    unfold build_cashflow_detailed_table at hr
    rcases List.mem_cons.mp hr with rfl | hr2
    · rfl
    · rcases List.mem_append.mp hr2 with h | h
      · rcases List.mem_append.mp h with h3 | h3
        · exact mkDetSection_total _ _ _ _ _ _ _ r h3
        · exact mkDetSection_total _ _ _ _ _ _ _ r h3
      · rcases List.mem_singleton.mp h with rfl
        rfl
  · intro dj pj r hr
    obtain ⟨s, _, rfl⟩ := List.mem_map.mp hr
    rfl
  · intro dj pj r hr
    unfold build_cashflow_detailed_table_for_day at hr
    rcases List.mem_cons.mp hr with rfl | hr2
    · rfl
    · rcases List.mem_append.mp hr2 with h | h
      · rcases List.mem_append.mp h with h3 | h3
        · exact mkDetSection_total _ _ _ _ _ _ _ r h3
        · exact mkDetSection_total _ _ _ _ _ _ _ r h3
      · rcases List.mem_singleton.mp h with rfl
        rfl

/-- Witness for C5 at Example 1 of the spec: a single balance row with
start balance 1000 gives an opening row whose total equals main + trades. -/
theorem c5_total_column_witness :
    (addTotal (mkSRow "Остаток на начало" "" 1000 0)).total
      = (addTotal (mkSRow "Остаток на начало" "" 1000 0)).mainVal
        + (addTotal (mkSRow "Остаток на начало" "" 1000 0)).tradesVal :=
  c5_total_column.1 ⟨[⟨some "Главная касса", none, "OPERATIONAL", 0, 0, 1000, 1200⟩], true⟩
    _ (by decide)

/-- C6 counterexample: the account name `Торговая главная касса` contains a
trades fragment, yet it normalizes to the main account (the main fragment
is checked first), refuting "any string containing a trades fragment maps
to the trades account". -/
theorem c6_counterexample :
    tradesFragHit (lowerName (some "Торговая главная касса")) = true ∧
    mapName (some "Торговая главная касса") = some Account.main ∧
    mapName (some "Торговая главная касса") ≠ some Account.trades := by
  refine ⟨by decide, by decide, by decide⟩

/-- C6 (amended): account matching is case-insensitive substring matching
with the main fragment checked first — a string containing a main fragment
maps to main; a string containing a trades fragment and no main fragment
maps to trades; a string containing neither fragment maps to nothing, and
every normalized row originates from a raw row whose name mapped to its
canonical account (unmatched rows never appear). -/
theorem c6_account_matching_amended :
    (∀ v : String, mainFragHit (lowerName (some v)) = true →
        mapName (some v) = some Account.main) ∧
    (∀ v : String, tradesFragHit (lowerName (some v)) = true →
        mainFragHit (lowerName (some v)) = false →
        mapName (some v) = some Account.trades) ∧
    (∀ v : String, mainFragHit (lowerName (some v)) = false →
        tradesFragHit (lowerName (some v)) = false →
        mapName (some v) = none) ∧
    (∀ (d : RawData) (r : NRow), r ∈ normalize_accounts d →
        ∃ raw ∈ d.rows, mapName raw.accountName = some r.account) := by
  refine ⟨?_, ?_, ?_, ?_⟩
  · intro v h
    have hs : ¬lowerName (some v) = "" := by
      intro he
      rw [he] at h
      exact absurd h (by decide)
    simp [mapName, hs, h]
  · intro v h hm
    have hs : ¬lowerName (some v) = "" := by
      intro he
      rw [he] at h
      exact absurd h (by decide)
    simp [mapName, hs, h, hm]
  · intro v hm htr
    by_cases hs : lowerName (some v) = ""
    · simp [mapName, hs]
    · have h1 : ¬(some v = some "Main cash register") := by
        intro he
        rw [Option.some.injEq] at he
        subst he
        exact absurd hm (by decide)
      have h2 : ¬(some v = some "Trade cash registers") := by
        intro he
        rw [Option.some.injEq] at he
        subst he
        exact absurd htr (by decide)
      have h3 : ¬(some v = some "Главная касса") := by
        intro he
        rw [Option.some.injEq] at he
        subst he
        exact absurd hm (by decide)
      have h4 : ¬(some v = some "Торговые кассы") := by
        intro he
        rw [Option.some.injEq] at he
        subst he
        exact absurd htr (by decide)
      simp [mapName, hs, hm, htr, accountNameMap, h1, h2, h3, h4]
  · intro d r hr
    unfold normalize_accounts at hr
    split at hr
    · obtain ⟨raw, hraw, htr⟩ := List.mem_filterMap.mp hr
      unfold toNRow at htr
      obtain ⟨a, ha, hfa⟩ := Option.map_eq_some'.mp htr
      refine ⟨raw, hraw, ?_⟩
      rw [ha]
      rw [← hfa]
    · exact absurd hr (List.not_mem_nil r)

/-- Witness for the amended C6 at concrete names: an upper-case English
variant maps to the main account and a suffixed trades name maps to the
trades account. -/
theorem c6_account_matching_amended_witness :
    mapName (some "MAIN CASH REGISTER (бар)") = some Account.main ∧
    mapName (some "Торговые кассы №2") = some Account.trades := by
  constructor
  · exact c6_account_matching_amended.1 "MAIN CASH REGISTER (бар)" (by decide)
  · exact c6_account_matching_amended.2.1 "Торговые кассы №2" (by decide) (by decide)

/-- C8 counterexample: a date-argument list whose value does not parse is
rejected (the `ValueError` of `date.fromisoformat` propagates), not
recovered with a default range. -/
theorem c8_counterexample :
    cashflow_parse_args ["not-a-date"] ⟨2025, 10, 12⟩ = Except.error () :=
  rfl

/-- C8 (amended): an out-of-order pair of parsable dates is recovered by
swapping, and a date-argument count other than one or two is recovered by
substituting the default yesterday-to-today range; but a date value that
does not parse raises instead of being replaced by a default. -/
theorem c8_date_range_amended :
    (∀ (a b : String) (x y today : PDate),
        parseIsoDate a = some x → parseIsoDate b = some y → a ≠ b → pdLt y x = true →
        cashflow_parse_args [a, b] today = Except.ok (y, x, false)) ∧
    (∀ (args : List String) (today : PDate),
        args = [] ∨ 3 ≤ args.length →
        cashflow_parse_args args today = Except.ok (prevDay today, today, false)) ∧
    (∀ (s : String) (today : PDate),
        parseIsoDate s = none → cashflow_parse_args [s] today = Except.error ()) := by
  refine ⟨?_, ?_, ?_⟩
  · intro a b x y today ha hb hne hlt
    have hab : (a == b) = false := by simp [hne]
    simp [cashflow_parse_args, hab, ha, hb, hlt]
  · intro args today h
    rcases h with h | h
    · subst h
      rfl
    · match args, h with
      | a :: b :: c :: rest, _ => rfl
  · intro s today h
    simp [cashflow_parse_args, h]

/-- Witness for the amended C8: a reversed pair is swapped, and an empty
argument list yields the default yesterday-to-today range. -/
theorem c8_date_range_amended_witness :
    cashflow_parse_args ["2025-10-10", "2025-10-01"] ⟨2025, 10, 12⟩
      = Except.ok (⟨2025, 10, 1⟩, ⟨2025, 10, 10⟩, false) ∧
    cashflow_parse_args [] ⟨2025, 10, 12⟩
      = Except.ok (⟨2025, 10, 11⟩, ⟨2025, 10, 12⟩, false) := by
  constructor
  · exact c8_date_range_amended.1 "2025-10-10" "2025-10-01" ⟨2025, 10, 10⟩ ⟨2025, 10, 1⟩
      ⟨2025, 10, 12⟩ (by decide) (by decide) (by decide) (by decide)
  · exact c8_date_range_amended.2.1 [] ⟨2025, 10, 12⟩ (Or.inl rfl)

end Tavrika
